import Mathlib

/-!
Verification of the server lifecycle orchestrator in `source/server/server.cc`.

The file shallowly embeds the functions the claims are about:
`InitManagerImpl::initialize` / `registerTarget` (lines 36-60), the
`InstanceImpl` constructor (lines 62-91), `InstanceImpl::initialize`
(lines 173-281), `startWorkers` (283-303), `run` (373-401),
`shutdownAdmin` (410-418), `loadServerFlags` (350-360),
`failHealthcheck` (109-112), `healthCheckFailed` (171) and
`getListenSocketByIndex` (158-164).

Init targets, workers and listener configs are identified by natural
numbers standing for the C++ object identities (pointers).  Assertion
failures and C++ undefined behaviour are modelled by `Option.none`.
-/

namespace EnvoyServer

/- ============================ Definitions ============================ -/

/-- `InitManagerImpl::State` (NotInitialized / Initializing / Initialized). -/
inductive InitState
  | NotInitialized
  | Initializing
  | Initialized
deriving DecidableEq, Repr

/-- The observable fields of `InitManagerImpl`: the current state, the pending
target list `targets_` (a `std::list` of target pointers, modelled as a list of
target ids), and the number of times the stored `callback_` (the `done`
continuation handed to `initialize`) has been invoked. -/
structure InitManagerImpl where
  state : InitState
  targets : List Nat
  doneCount : Nat
deriving DecidableEq, Repr

/-- Observable events emitted while `InitManagerImpl::initialize` runs:
invoking the `done` callback, a write to `state_`, and a call to a registered
target's `initialize`. -/
inductive InitEvent
  | callDone
  | setState (s : InitState)
  | callTargetInit (t : Nat)
deriving DecidableEq, Repr

/-- `InitManagerImpl::registerTarget` (server.cc 57-60): `ASSERT(state_ ==
State::NotInitialized)` then `targets_.push_back(&target)`.  The assertion
failure is `none`. -/
def registerTarget (m : InitManagerImpl) (t : Nat) : Option InitManagerImpl :=
  if m.state = InitState.NotInitialized then
    some { m with targets := m.targets ++ [t] }
  else
    none

/-- A sequence of `registerTarget` calls, in order. -/
def registerAll : List Nat → InitManagerImpl → Option InitManagerImpl
  | [], m => some m
  | t :: rest, m => (registerTarget m t).bind (registerAll rest)

/-- The completion lambda `initialize` hands to each target (server.cc 45-52):
`ASSERT(std::find(...) != targets_.end())`, then `targets_.remove(target)`
(which removes every list node equal to `target`), and if the list became
empty, `state_ = State::Initialized; callback_();`. -/
def targetDoneCallback (m : InitManagerImpl) (t : Nat) : Option InitManagerImpl :=
  if t ∈ m.targets then
    if (m.targets.filter (fun x => x ≠ t)).isEmpty then
      some { state := InitState.Initialized,
             targets := m.targets.filter (fun x => x ≠ t),
             doneCount := m.doneCount + 1 }
    else
      some { m with targets := m.targets.filter (fun x => x ≠ t) }
  else
    none

/-- The `for (auto target : targets_)` loop of `initialize` (server.cc 44-53).
`b t = true` means target `t` invokes its completion callback synchronously,
inside its own `initialize` call, while the range-for is still positioned on
`t`'s list node.  In that case `targets_.remove(target)` destroys the node the
loop iterator refers to, and the subsequent iterator increment is undefined
behaviour: the embedding returns `none`.  `b t = false` means `t` will call
back later (asynchronously), so the loop body leaves `targets_` untouched. -/
def initLoop (b : Nat → Bool) : List Nat → InitManagerImpl → List InitEvent →
    Option (InitManagerImpl × List InitEvent)
  | [], m, tr => some (m, tr)
  | t :: rest, m, tr =>
    if b t then
      none
    else
      initLoop b rest m (tr ++ [InitEvent.callTargetInit t])

/-- `InitManagerImpl::initialize` (server.cc 36-55).  `ASSERT(state_ ==
State::NotInitialized)`; if `targets_.empty()` then `callback()` is invoked
first and `state_ = State::Initialized` is assigned after it (lines 39-40);
otherwise `callback_` is stored, `state_ = State::Initializing`, and the loop
calls each target's `initialize`.  Returns the manager together with the event
trace. -/
def initMgrInit (b : Nat → Bool) (m : InitManagerImpl) :
    Option (InitManagerImpl × List InitEvent) :=
  if m.state = InitState.NotInitialized then
    if m.targets.isEmpty then
      some ({ m with state := InitState.Initialized, doneCount := m.doneCount + 1 },
            [InitEvent.callDone, InitEvent.setState InitState.Initialized])
    else
      initLoop b m.targets { m with state := InitState.Initializing }
        [InitEvent.setState InitState.Initializing]
  else
    none

/-- Asynchronous completion callbacks delivered after `initialize` returned,
in the given order. -/
def runCallbacks : List Nat → InitManagerImpl → Option InitManagerImpl
  | [], m => some m
  | t :: rest, m => (targetDoneCallback m t).bind (runCallbacks rest)

/-- Observable events of `InstanceImpl::startWorkers`: a call to a worker's
`initializeConfiguration`, the critical log line of the `catch` block, the
`kill(getpid(), SIGTERM)` performed by `shutdown()` (server.cc 405-408), and
the post-loop calls. -/
inductive WorkerEvent
  | initConfig (w : Nat)
  | logCriticalWorker (w : Nat)
  | killSigtermSelf
  | drainParentListeners
  | startParentShutdownSequence
  | onServerInitialized
deriving DecidableEq, Repr

/-- The `for (const WorkerPtr& worker : workers_)` loop of `startWorkers`.
`fails w = true` means `worker->initializeConfiguration(...)` throws
`CreateListenerException`; the catch block logs and calls `shutdown()`, and
the loop then continues with the next worker. -/
def startWorkersLoop (fails : Nat → Bool) : List Nat → List WorkerEvent
  | [] => []
  | w :: rest =>
    (WorkerEvent.initConfig w ::
      (if fails w then [WorkerEvent.logCriticalWorker w, WorkerEvent.killSigtermSelf]
       else [])) ++ startWorkersLoop fails rest

/-- `InstanceImpl::startWorkers` (server.cc 283-303): run the worker loop,
then — with no success condition guarding them — call
`restarter_.drainParentListeners()`, `drain_manager_->startParentShutdownSequence()`
and `hooks.onServerInitialized()`. -/
def startWorkers (fails : Nat → Bool) (workers : List Nat) : List WorkerEvent :=
  startWorkersLoop fails workers ++
    [WorkerEvent.drainParentListeners, WorkerEvent.startParentShutdownSequence,
     WorkerEvent.onServerInitialized]

/-- Observable events of `InstanceImpl::run`, in the order the statements of
the function produce them. -/
inductive RunEvent
  | createWatchDog
  | startWatchdogTimer
  | dispatcherRunBlock
  | stopWatching
  | shutdownThreading
  | workerExit (w : Nat)
  | flushStats
  | clusterManagerShutdown
  | closeConnections
  | shutdownThread
deriving DecidableEq, Repr

/-- The part of `InstanceImpl`'s state `run` and `shutdownAdmin` interact
with: whether `stat_flush_timer_` currently holds a timer. -/
structure InstanceFlushState where
  statFlushTimerSet : Bool
deriving DecidableEq, Repr

/-- `InstanceImpl::shutdownAdmin` (server.cc 410-418): `stat_flush_timer_.reset()`
clears the flush timer (the rest of the function closes the admin listener and
terminates the parent, which this state does not track). -/
def shutdownAdmin (s : InstanceFlushState) : InstanceFlushState :=
  { s with statFlushTimerSet := false }

/-- `InstanceImpl::run` (server.cc 373-401), statement by statement:
create the main-thread watchdog, start its touch timer, run the dispatcher in
`Block` mode; after it returns, stop watching, `stats_store_.shutdownThreading()`,
`worker->exit()` for each worker in order, `flushStats()` iff
`stat_flush_timer_` is non-null, `config_->clusterManager().shutdown()`,
`handler_.closeConnections()`, `thread_local_.shutdownThread()`.  Workers are
identified by their index in `workers_`. -/
def runEvents (numWorkers : Nat) (s : InstanceFlushState) : List RunEvent :=
  let tr0 : List RunEvent := [RunEvent.createWatchDog]
  let tr1 := tr0 ++ [RunEvent.startWatchdogTimer]
  let tr2 := tr1 ++ [RunEvent.dispatcherRunBlock]
  let tr3 := tr2 ++ [RunEvent.stopWatching]
  let tr4 := tr3 ++ [RunEvent.shutdownThreading]
  let tr5 := (List.range numWorkers).foldl (fun tr w => tr ++ [RunEvent.workerExit w]) tr4
  let tr6 := if s.statFlushTimerSet then tr5 ++ [RunEvent.flushStats] else tr5
  let tr7 := tr6 ++ [RunEvent.clusterManagerShutdown]
  let tr8 := tr7 ++ [RunEvent.closeConnections]
  tr8 ++ [RunEvent.shutdownThread]

/-- Address family of a listener's address (`Network::Address::Type`). -/
inductive AddrKind
  | ip
  | uds
deriving DecidableEq, Repr

/-- The fields of a `Configuration::Listener` the socket-map loop reads:
its object identity (`listener.get()`, the pointer used as the map key), the
address string, the `bindToPort` flag and the address type. -/
structure ListenerConfig where
  id : Nat
  address : String
  bindToPort : Bool
  kind : AddrKind
deriving DecidableEq, Repr

/-- A `Network::ListenSocket` as produced by the loop: either a
`TcpListenSocket(fd, address)` wrapping a descriptor inherited from the
parent, or a freshly bound `TcpListenSocket(address, bind_to_port)`. -/
inductive ListenSocket
  | inheritedFd (fd : Int) (addr : String)
  | freshBound (addr : String) (bindToPort : Bool)
deriving DecidableEq, Repr

/-- One iteration of the socket-map loop (server.cc 227-244):
`ASSERT(listener->address()->type() == Type::Ip)` (failure is `none`), build
the url `"tcp://" + address`, call `restarter_.duplicateParentListenSocket`,
and wrap the inherited fd when it is not `-1`, otherwise bind fresh.  `dup`
models `duplicateParentListenSocket`. -/
def listenerSocketEntry (dup : String → Int) (l : ListenerConfig) :
    Option (Nat × ListenSocket) :=
  if l.kind = AddrKind.ip then
    if dup ("tcp://" ++ l.address) ≠ -1 then
      some (l.id, ListenSocket.inheritedFd (dup ("tcp://" ++ l.address)) l.address)
    else
      some (l.id, ListenSocket.freshBound l.address l.bindToPort)
  else
    none

/-- The whole loop: one `socket_map_` entry per listener, keyed by listener
identity, in listener order. -/
def buildSocketMap (dup : String → Int) :
    List ListenerConfig → Option (List (Nat × ListenSocket))
  | [] => some []
  | l :: rest =>
    (listenerSocketEntry dup l).bind fun e =>
      (buildSocketMap dup rest).map fun m => e :: m

/-- A hexadecimal digit, as accepted for the build SHA: a character code in
the ranges of `0`-`9`, `a`-`f` or `A`-`F`. -/
def isHexDigit (c : Char) : Bool :=
  (48 ≤ c.toNat && c.toNat ≤ 57) || (97 ≤ c.toNat && c.toNat ≤ 102) ||
    (65 ≤ c.toNat && c.toNat ≤ 70)

/-- Value of a hexadecimal digit, computed from the character code
(0 for a non-digit; never reached on accepted input). -/
def hexDigitVal (c : Char) : Nat :=
  if 48 ≤ c.toNat ∧ c.toNat ≤ 57 then c.toNat - 48
  else if 97 ≤ c.toNat ∧ c.toNat ≤ 102 then c.toNat - 97 + 10
  else if 65 ≤ c.toNat ∧ c.toNat ≤ 70 then c.toNat - 65 + 10
  else 0

/-- Modelled from the spec: `StringUtil::atoul(s, out, 16)` (the
implementation in `common/common/utility.cc` is not under `src/`) — parse a
string as an unsigned base-16 integer, failing on an empty string or on any
character that is not a hexadecimal digit.  The spec describes the use here
as "publish server.version as first 24 bits of the build SHA (fail hard if
SHA unparseable)". -/
def atoulHex : List Char → Nat → Option Nat
  | [], acc => some acc
  | c :: rest, acc =>
    if isHexDigit c then atoulHex rest (acc * 16 + hexDigitVal c) else none

/-- The `InstanceImpl` constructor's version computation (server.cc 75-79):
`StringUtil::atoul(VersionInfo::revision().substr(0, 6).c_str(), v, 16)`;
on failure an `EnvoyException` is thrown (`none`), on success
`server_stats_.version_.set(v)` publishes the value (`some v`). -/
def parseBuildShaVersion (revision : List Char) : Option Nat :=
  if (revision.take 6).isEmpty then none
  else atoulHex (revision.take 6) 0

/-- Observable events of the worker-construction part of
`InstanceImpl::initialize` (server.cc 197-207): constructing the `i`-th
`Worker`, registering the main thread for thread-local updates, and
initializing stats threading. -/
inductive PhaseEvent
  | createWorker (i : Nat)
  | registerMainThread
  | statsThreadingInit
deriving DecidableEq, Repr

/-- Recognises worker-construction events. -/
def isCreateWorker : PhaseEvent → Bool
  | PhaseEvent.createWorker _ => true
  | _ => false

/-- Server.cc 197-207: `for (uint32_t i = 0; i < std::max(1U,
options.concurrency()); i++) workers_.emplace_back(new Worker(...))`, then
`thread_local_.registerThread(handler_.dispatcher(), true)`, then
`stats_store_.initializeThreading(...)`. -/
def workerPhaseEvents (concurrency : Nat) : List PhaseEvent :=
  (List.range (max 1 concurrency)).map PhaseEvent.createWorker ++
    [PhaseEvent.registerMainThread, PhaseEvent.statsThreadingInit]

/-- The `server.live` gauge of `server_stats_`. -/
structure ServerStats where
  live : Nat
deriving DecidableEq, Repr

/-- `InstanceImpl::failHealthcheck` (server.cc 109-112):
`server_stats_.live_.set(!fail)`. -/
def failHealthcheck (s : ServerStats) (fail : Bool) : ServerStats :=
  { s with live := if fail then 0 else 1 }

/-- `InstanceImpl::healthCheckFailed` (server.cc 171):
`server_stats_.live_.value() == 0`. -/
def healthCheckFailed (s : ServerStats) : Bool :=
  s.live == 0

/-- `InstanceImpl::loadServerFlags` (server.cc 350-360): nothing when no
flags path is configured; otherwise `failHealthcheck(true)` iff the file
`flags_path + "/drain"` exists. -/
def loadServerFlags (fileExists : String → Bool) (flagsPath : Option String)
    (s : ServerStats) : ServerStats :=
  match flagsPath with
  | none => s
  | some p => if fileExists (p ++ "/drain") then failHealthcheck s true else s

/-- The start-up order relevant to the health gauge: the constructor's
`failHealthcheck(false)` (server.cc 73) followed by `loadServerFlags` from
`initialize` (server.cc 195); `g` is the gauge's prior value (it lives in
shared memory). -/
def startupHealth (fileExists : String → Bool) (flagsPath : Option String)
    (g : Nat) : ServerStats :=
  loadServerFlags fileExists flagsPath (failHealthcheck ⟨g⟩ false)

/-- `InstanceImpl::getListenSocketByIndex` (server.cc 158-164): check
`index < config_->listeners().size()`, advance an iterator `index` steps with
`std::next`, and return `socket_map_[it->get()].get()`; out of range returns
`nullptr` (`none`).  `std::map::operator[]` on an absent key
default-constructs a null entry, whose `.get()` is `nullptr` — hence the
association-list lookup, whose miss is also `none`. -/
def getListenSocketByIndex (listeners : List ListenerConfig)
    (socketMap : List (Nat × ListenSocket)) (index : Nat) : Option ListenSocket :=
  if h : index < listeners.length then
    socketMap.lookup (listeners.get ⟨index, h⟩).id
  else
    none

/- ====================== Lemmas and claim theorems ====================== -/

lemma registerAll_from_notInit (ts acc : List Nat) (d : Nat) :
    registerAll ts ⟨InitState.NotInitialized, acc, d⟩ =
      some ⟨InitState.NotInitialized, acc ++ ts, d⟩ := by
  induction ts generalizing acc with
  | nil => simp [registerAll]
  | cons t rest ih =>
    simp [registerAll, registerTarget, Option.bind, ih, List.append_assoc]

lemma initLoop_async (pending : List Nat) (m : InitManagerImpl) (tr : List InitEvent) :
    initLoop (fun _ => false) pending m tr =
      some (m, tr ++ pending.map InitEvent.callTargetInit) := by
  induction pending generalizing tr with
  | nil => simp [initLoop]
  | cons t rest ih => simp [initLoop, ih, List.append_assoc]

lemma targetDoneCallback_step {ts : List Nat} {p : Nat} (hp : p ∈ ts)
    (hne : ts.filter (fun x => x ≠ p) ≠ []) (st : InitState) (d : Nat) :
    targetDoneCallback ⟨st, ts, d⟩ p = some ⟨st, ts.filter (fun x => x ≠ p), d⟩ := by
  have hne' : ¬ ((ts.filter (fun x => x ≠ p)).isEmpty = true) := by
    rw [List.isEmpty_iff]
    exact hne
  simp only [targetDoneCallback]
  rw [if_pos hp, if_neg hne']

lemma targetDoneCallback_fires {ts : List Nat} {p : Nat} (hp : p ∈ ts)
    (hall : ts.filter (fun x => x ≠ p) = []) (st : InitState) (d : Nat) :
    targetDoneCallback ⟨st, ts, d⟩ p = some ⟨InitState.Initialized, [], d + 1⟩ := by
  have hemp : (ts.filter (fun x => x ≠ p)).isEmpty = true := by
    rw [List.isEmpty_iff]
    exact hall
  simp only [targetDoneCallback]
  rw [if_pos hp, if_pos hemp, hall]

lemma filter_ne_of_perm_cons {t : Nat} {rest ts : List Nat}
    (hnd : (t :: rest).Nodup) (hperm : (t :: rest).Perm ts) :
    (ts.filter (fun x => x ≠ t)).Perm rest := by
  have htnotin : t ∉ rest := (List.nodup_cons.mp hnd).1
  have h1 : (ts.filter (fun x => x ≠ t)).Perm ((t :: rest).filter (fun x => x ≠ t)) :=
    (hperm.symm).filter _
  have hall : ∀ a ∈ rest, (decide (a ≠ t)) = true := fun a ha => by
    simp only [decide_eq_true_eq, ne_eq]
    exact fun h => htnotin (h ▸ ha)
  have h2 : (t :: rest).filter (fun x => x ≠ t) = rest := by
    rw [List.filter_cons]
    have hh : (decide (t ≠ t)) = false := by simp
    rw [hh]
    simp only [Bool.false_eq_true, if_false]
    exact List.filter_eq_self.mpr hall
  rw [h2] at h1
  exact h1

/-- After an arbitrary permutation of the registered targets has called back,
the manager reaches `Initialized` and the stored `done` callback has fired
exactly once. -/
lemma runCallbacks_perm (order : List Nat) :
    ∀ ts : List Nat, order.Nodup → order.Perm ts → order ≠ [] →
    runCallbacks order ⟨InitState.Initializing, ts, 0⟩ =
      some ⟨InitState.Initialized, [], 1⟩ := by
  induction order with
  | nil => intro ts _ _ h; exact absurd rfl h
  | cons t rest ih =>
    intro ts hnd hperm _
    have ht : t ∈ ts := hperm.mem_iff.mp (List.mem_cons_self t rest)
    have hremperm : (ts.filter (fun x => x ≠ t)).Perm rest :=
      filter_ne_of_perm_cons hnd hperm
    cases hrest : rest with
    | nil =>
      have hall : ts.filter (fun x => x ≠ t) = [] := by
        rw [hrest] at hremperm
        exact List.Perm.eq_nil hremperm
      simp [runCallbacks, targetDoneCallback_fires ht hall, hrest]
    | cons r rest2 =>
      have hne : ts.filter (fun x => x ≠ t) ≠ [] := by
        intro h
        rw [h, hrest] at hremperm
        exact absurd hremperm.symm.eq_nil (by simp)
      rw [runCallbacks, targetDoneCallback_step ht hne, Option.bind]
      rw [← hrest]
      exact ih _ (List.nodup_cons.mp hnd).2 hremperm.symm (by rw [hrest]; simp)

/-- A strict prefix of the callback order leaves the barrier pending: the
state stays `Initializing` and `done` has not been invoked. -/
lemma runCallbacks_prefix (pfx : List Nat) :
    ∀ ts : List Nat, pfx.Nodup → (∀ x ∈ pfx, x ∈ ts) → (∃ y ∈ ts, y ∉ pfx) →
    runCallbacks pfx ⟨InitState.Initializing, ts, 0⟩ =
      some ⟨InitState.Initializing, ts.filter (fun x => x ∉ pfx), 0⟩ := by
  induction pfx with
  | nil => intro ts _ _ _; simp [runCallbacks]
  | cons p rest ih =>
    intro ts hnd hsub hex
    obtain ⟨y, hy, hynp⟩ := hex
    have hp : p ∈ ts := hsub p (List.mem_cons_self p rest)
    have hyp : y ≠ p := fun h => hynp (h ▸ List.mem_cons_self p rest)
    have hyrem : y ∈ ts.filter (fun x => x ≠ p) := by
      simp only [List.mem_filter, ne_eq, decide_eq_true_eq]
      exact ⟨hy, hyp⟩
    have hne : ts.filter (fun x => x ≠ p) ≠ [] := by
      intro h; rw [h] at hyrem; exact absurd hyrem (List.not_mem_nil y)
    rw [runCallbacks, targetDoneCallback_step hp hne, Option.bind]
    have hpnr : p ∉ rest := (List.nodup_cons.mp hnd).1
    rw [ih (ts.filter (fun x => x ≠ p)) (List.nodup_cons.mp hnd).2
      (fun x hx => by
        simp only [List.mem_filter, ne_eq, decide_eq_true_eq]
        exact ⟨hsub x (List.mem_cons_of_mem p hx), fun h => hpnr (h ▸ hx)⟩)
      ⟨y, hyrem, fun h => hynp (List.mem_cons_of_mem p h)⟩]
    rw [List.filter_filter]
    have hfeq : ts.filter (fun a => decide (a ∉ rest) && decide (a ≠ p)) =
        ts.filter (fun x => decide (x ∉ p :: rest)) := by
      refine List.filter_congr (fun a _ => ?_)
      by_cases hap : a = p
      · simp [hap]
      · by_cases har : a ∈ rest <;> simp [hap, har]
    rw [hfeq]

lemma count_map_callTargetInit (l : List Nat) (t : Nat) :
    (l.map InitEvent.callTargetInit).count (InitEvent.callTargetInit t) = l.count t := by
  induction l with
  | nil => simp
  | cons a rest ih =>
    by_cases h : a = t
    · subst h; simp [List.count_cons, ih]
    · simp only [List.map_cons, List.count_cons, ih]
      have h1 : (InitEvent.callTargetInit a == InitEvent.callTargetInit t) = false := by
        simp only [beq_eq_false_iff_ne, ne_eq, InitEvent.callTargetInit.injEq]
        exact h
      have h2 : (a == t) = false := by
        simp only [beq_eq_false_iff_ne, ne_eq]
        exact h
      rw [h1, h2]

/-- C1: for every legal sequence of `registerTarget` calls (each target
registered once) followed by exactly one `initialize(done)` on a fresh
`InitManagerImpl`, where each registered target later invokes its completion
callback exactly once, the stored `done` callback is invoked exactly once
(`doneCount = 1` at the end), and only after every registered target has
called back (`doneCount = 0` after every strict prefix of the completion
order); the completion order — any permutation of the registered targets —
does not change this.  Every target's `initialize` is called exactly once. -/
theorem init_manager_barrier (ts order : List Nat) (hnd : ts.Nodup)
    (hperm : order.Perm ts) :
    ∃ m2 tr,
      (registerAll ts ⟨InitState.NotInitialized, [], 0⟩).bind
          (initMgrInit (fun _ => false)) = some (m2, tr) ∧
      (∀ t ∈ ts, tr.count (InitEvent.callTargetInit t) = 1) ∧
      (∃ mf, runCallbacks order m2 = some mf ∧
        mf.state = InitState.Initialized ∧ mf.doneCount = 1) ∧
      (∀ k, k < order.length →
        ∃ mp, runCallbacks (order.take k) m2 = some mp ∧ mp.doneCount = 0) := by
  rw [registerAll_from_notInit, List.nil_append, Option.bind]
  have hordernd : order.Nodup := hperm.symm.nodup hnd
  cases hts : ts with
  | nil =>
    refine ⟨⟨InitState.Initialized, [], 1⟩,
      [InitEvent.callDone, InitEvent.setState InitState.Initialized], ?_, ?_, ?_, ?_⟩
    · simp [initMgrInit]
    · intro t ht; exact absurd ht (List.not_mem_nil t)
    · have : order = [] := by
        rw [hts] at hperm
        exact hperm.eq_nil
      rw [this]
      exact ⟨⟨InitState.Initialized, [], 1⟩, rfl, rfl, rfl⟩
    · intro k hk
      have : order = [] := by
        rw [hts] at hperm
        exact hperm.eq_nil
      rw [this] at hk
      exact absurd hk (by simp)
  | cons t0 rest0 =>
    rw [← hts]
    have htsne : ¬ ts.isEmpty = true := by
      rw [List.isEmpty_iff, hts]
      simp
    have horderne : order ≠ [] := by
      intro h
      rw [h, hts] at hperm
      exact absurd hperm.symm.eq_nil (by simp)
    refine ⟨⟨InitState.Initializing, ts, 0⟩,
      InitEvent.setState InitState.Initializing :: ts.map InitEvent.callTargetInit,
      ?_, ?_, ?_, ?_⟩
    · simp only [initMgrInit, if_pos rfl, if_neg htsne]
      rw [initLoop_async]
      rfl
    · intro t ht
      rw [List.count_cons]
      rw [count_map_callTargetInit, List.count_eq_one_of_mem hnd ht]
      simp
    · exact ⟨⟨InitState.Initialized, [], 1⟩,
        runCallbacks_perm order ts hordernd hperm horderne, rfl, rfl⟩
    · intro k hk
      have hsub : ∀ x ∈ order.take k, x ∈ ts :=
        fun x hx => hperm.mem_iff.mp (List.mem_of_mem_take hx)
      have hy : ∃ y ∈ ts, y ∉ order.take k := by
        refine ⟨order.get ⟨k, hk⟩, hperm.mem_iff.mp (order.get_mem k hk), fun hmem => ?_⟩
        have hdrop : order.get ⟨k, hk⟩ ∈ order.drop k := by
          rw [List.drop_eq_getElem_cons hk]
          exact List.mem_cons_self _ _
        exact (List.Pairwise.rel_of_mem_take_of_mem_drop hordernd hmem hdrop) rfl
      have hpnd : (order.take k).Nodup :=
        List.Nodup.sublist (List.take_sublist k order) hordernd
      exact ⟨⟨InitState.Initializing, ts.filter (fun x => x ∉ order.take k), 0⟩,
        runCallbacks_prefix (order.take k) ts hpnd hsub hy, rfl⟩

/-- Witness for C1: two targets `3` and `5`, completing in the reverse of
registration order. -/
theorem init_manager_barrier_witness :
    ∃ m2 tr,
      (registerAll [3, 5] ⟨InitState.NotInitialized, [], 0⟩).bind
          (initMgrInit (fun _ => false)) = some (m2, tr) ∧
      (∀ t ∈ [3, 5], tr.count (InitEvent.callTargetInit t) = 1) ∧
      (∃ mf, runCallbacks [5, 3] m2 = some mf ∧
        mf.state = InitState.Initialized ∧ mf.doneCount = 1) ∧
      (∀ k, k < [5, 3].length →
        ∃ mp, runCallbacks ([5, 3].take k) m2 = some mp ∧ mp.doneCount = 0) :=
  init_manager_barrier [3, 5] [5, 3] (by decide) (by decide)

/-- C2, as stated, is false on the code: in the empty fast path (server.cc
39-40) `callback()` runs first and `state_ = State::Initialized` is assigned
only afterwards, so at the concrete input of a fresh manager with no targets
the trace places the `done` invocation strictly before the `Initialized`
state transition — not after it. -/
theorem initMgrInit_empty_done_precedes_transition :
    initMgrInit (fun _ => false) ⟨InitState.NotInitialized, [], 0⟩ =
      some (⟨InitState.Initialized, [], 1⟩,
        [InitEvent.callDone, InitEvent.setState InitState.Initialized]) ∧
    List.indexOf InitEvent.callDone
        [InitEvent.callDone, InitEvent.setState InitState.Initialized] <
      List.indexOf (InitEvent.setState InitState.Initialized)
        [InitEvent.callDone, InitEvent.setState InitState.Initialized] := by
  decide

/-- C2 (amended): if no targets are registered, `initialize(done)` invokes
`done` synchronously exactly once before returning and then sets the state to
`Initialized`; the state after `initialize` returns is `Initialized`. -/
theorem initMgrInit_empty_fast_path (b : Nat → Bool) (m : InitManagerImpl)
    (hs : m.state = InitState.NotInitialized) (ht : m.targets = []) :
    ∃ m', initMgrInit b m =
        some (m', [InitEvent.callDone, InitEvent.setState InitState.Initialized]) ∧
      m'.state = InitState.Initialized ∧ m'.doneCount = m.doneCount + 1 ∧
      m'.targets = m.targets := by
  refine ⟨{ m with state := InitState.Initialized, doneCount := m.doneCount + 1 },
    ?_, rfl, rfl, rfl⟩
  simp [initMgrInit, hs, ht]

/-- Witness for the amended C2 at a concrete fresh manager. -/
theorem initMgrInit_empty_fast_path_witness :
    ∃ m', initMgrInit (fun _ => true) ⟨InitState.NotInitialized, [], 5⟩ =
        some (m', [InitEvent.callDone, InitEvent.setState InitState.Initialized]) ∧
      m'.state = InitState.Initialized ∧ m'.doneCount = 5 + 1 ∧
      m'.targets = [] :=
  initMgrInit_empty_fast_path (fun _ => true) ⟨InitState.NotInitialized, [], 5⟩ rfl rfl

/-- C3 is a code bug: a single registered target whose `initialize` invokes
the completion callback synchronously makes the callback run
`targets_.remove(target)` while the range-for of
`InitManagerImpl::initialize` is positioned on that target's list node;
`std::list` removal destroys exactly that node, so the loop's subsequent
iterator increment is undefined behaviour, and the embedding of
`initialize` gets stuck (`none`) instead of being a total function. -/
theorem initMgrInit_sync_callback_stuck :
    registerAll [7] ⟨InitState.NotInitialized, [], 0⟩ =
        some ⟨InitState.NotInitialized, [7], 0⟩ ∧
    initMgrInit (fun _ => true) ⟨InitState.NotInitialized, [7], 0⟩ = none := by
  decide

lemma startWorkersLoop_count_initConfig (fails : Nat → Bool) (workers : List Nat)
    (w : Nat) :
    (startWorkersLoop fails workers).count (WorkerEvent.initConfig w) =
      workers.count w := by
  induction workers with
  | nil => simp [startWorkersLoop]
  | cons a rest ih =>
    rw [startWorkersLoop]
    have hz : ∀ b : Bool,
        ((if b then [WorkerEvent.logCriticalWorker a, WorkerEvent.killSigtermSelf]
          else []) : List WorkerEvent).count (WorkerEvent.initConfig w) = 0 := by
      intro b
      cases b <;> simp [List.count_cons]
    simp only [List.cons_append, List.count_cons, List.count_append, ih, hz]
    by_cases h : a = w
    · subst h
      simp
    · have h1 : (WorkerEvent.initConfig a == WorkerEvent.initConfig w) = false := by
        simp only [beq_eq_false_iff_ne, ne_eq, WorkerEvent.initConfig.injEq]
        exact h
      have h2 : (a == w) = false := by
        simp only [beq_eq_false_iff_ne, ne_eq]
        exact h
      simp [h1, h2]

lemma startWorkersLoop_mem_logCritical (fails : Nat → Bool) (workers : List Nat)
    (w : Nat) (hw : w ∈ workers) (hf : fails w = true) :
    WorkerEvent.logCriticalWorker w ∈ startWorkersLoop fails workers ∧
      WorkerEvent.killSigtermSelf ∈ startWorkersLoop fails workers := by
  induction workers with
  | nil => exact absurd hw (List.not_mem_nil w)
  | cons a rest ih =>
    rw [startWorkersLoop]
    rcases List.mem_cons.mp hw with h | h
    · subst h
      constructor <;> simp [hf]
    · obtain ⟨hl, hk⟩ := ih h
      constructor <;> simp [hl, hk]

/-- C4, as stated, is false on the code: with a single worker whose
`initializeConfiguration` throws `CreateListenerException`,
`restarter_.drainParentListeners()` and
`drain_manager_->startParentShutdownSequence()` are still invoked — the code
runs them unconditionally after the loop, not only when all workers
initialized successfully. -/
theorem startWorkers_drains_despite_failure :
    startWorkers (fun _ => true) [0] =
      [WorkerEvent.initConfig 0, WorkerEvent.logCriticalWorker 0,
       WorkerEvent.killSigtermSelf, WorkerEvent.drainParentListeners,
       WorkerEvent.startParentShutdownSequence, WorkerEvent.onServerInitialized] ∧
    WorkerEvent.drainParentListeners ∈ startWorkers (fun _ => true) [0] ∧
    (fun _ => true) 0 = true := by
  decide

/-- C4 (amended): `startWorkers` calls `initializeConfiguration` on every
worker (even after an earlier worker failed); for each worker whose
`initializeConfiguration` throws `CreateListenerException` the exception is
caught, logged, and `shutdown()` is called, which sends SIGTERM to the
process itself; and `restarter_.drainParentListeners()` followed by
`drain_manager_->startParentShutdownSequence()` is invoked unconditionally
after the loop, whether or not every worker initialized successfully. -/
theorem startWorkers_behavior (fails : Nat → Bool) (workers : List Nat) :
    (∀ w, (startWorkers fails workers).count (WorkerEvent.initConfig w) =
      workers.count w) ∧
    (∀ w ∈ workers, fails w = true →
      WorkerEvent.logCriticalWorker w ∈ startWorkers fails workers ∧
      WorkerEvent.killSigtermSelf ∈ startWorkers fails workers) ∧
    (startWorkers fails workers).drop (startWorkersLoop fails workers).length =
      [WorkerEvent.drainParentListeners, WorkerEvent.startParentShutdownSequence,
       WorkerEvent.onServerInitialized] := by
  refine ⟨?_, ?_, ?_⟩
  · intro w
    rw [startWorkers, List.count_append, startWorkersLoop_count_initConfig]
    simp [List.count_cons]
  · intro w hw hf
    obtain ⟨hl, hk⟩ := startWorkersLoop_mem_logCritical fails workers w hw hf
    exact ⟨List.mem_append_left _ hl, List.mem_append_left _ hk⟩
  · rw [startWorkers, List.drop_left]

/-- Witness for the amended C4: two workers, the first failing; worker 1 is
still initialized, the failure is logged with a self-SIGTERM, and the drain
calls still happen. -/
theorem startWorkers_behavior_witness :
    (startWorkers (fun x => x == 0) [0, 1]).count (WorkerEvent.initConfig 1) = 1 ∧
    (WorkerEvent.logCriticalWorker 0 ∈ startWorkers (fun x => x == 0) [0, 1] ∧
      WorkerEvent.killSigtermSelf ∈ startWorkers (fun x => x == 0) [0, 1]) ∧
    (startWorkers (fun x => x == 0) [0, 1]).drop
        (startWorkersLoop (fun x => x == 0) [0, 1]).length =
      [WorkerEvent.drainParentListeners, WorkerEvent.startParentShutdownSequence,
       WorkerEvent.onServerInitialized] :=
  ⟨((startWorkers_behavior (fun x => x == 0) [0, 1]).1 1).trans (by decide),
   (startWorkers_behavior (fun x => x == 0) [0, 1]).2.1 0 (by decide) (by decide),
   (startWorkers_behavior (fun x => x == 0) [0, 1]).2.2⟩

lemma foldl_append_singleton (f : Nat → RunEvent) (l : List Nat) (tr : List RunEvent) :
    l.foldl (fun acc w => acc ++ [f w]) tr = tr ++ l.map f := by
  induction l generalizing tr with
  | nil => simp
  | cons a rest ih => simp [List.foldl_cons, ih, List.append_assoc]

lemma runEvents_shape (n : Nat) (s : InstanceFlushState) :
    runEvents n s =
      [RunEvent.createWatchDog, RunEvent.startWatchdogTimer, RunEvent.dispatcherRunBlock,
       RunEvent.stopWatching, RunEvent.shutdownThreading]
      ++ (List.range n).map RunEvent.workerExit
      ++ (if s.statFlushTimerSet then [RunEvent.flushStats] else [])
      ++ [RunEvent.clusterManagerShutdown, RunEvent.closeConnections,
          RunEvent.shutdownThread] := by
  rw [runEvents]
  rw [foldl_append_singleton]
  cases hts : s.statFlushTimerSet <;> simp [List.append_assoc]

lemma count_map_workerExit (l : List Nat) (e : RunEvent)
    (he : ∀ w, e ≠ RunEvent.workerExit w) :
    (l.map RunEvent.workerExit).count e = 0 := by
  induction l with
  | nil => simp
  | cons a rest ih =>
    rw [List.map_cons, List.count_cons, ih]
    have : (RunEvent.workerExit a == e) = false := by
      simp only [beq_eq_false_iff_ne, ne_eq]
      exact fun h => he a h.symm
    rw [this]
    simp

/-- C5: `InstanceImpl::run` first creates the main-thread watchdog, starts
its touch timer and runs the main dispatcher in `Block` mode; after the
dispatcher returns it performs, in this order: `shutdownThreading`, `exit()`
on each worker, a stats flush exactly once iff the stats-flush timer still
exists, cluster-manager shutdown, `closeConnections` on the main handler, and
thread-local teardown — and after `shutdownAdmin` has cleared the timer no
flush happens. -/
theorem run_sequence (n : Nat) (s : InstanceFlushState) :
    runEvents n s =
      [RunEvent.createWatchDog, RunEvent.startWatchdogTimer, RunEvent.dispatcherRunBlock,
       RunEvent.stopWatching, RunEvent.shutdownThreading]
      ++ (List.range n).map RunEvent.workerExit
      ++ (if s.statFlushTimerSet then [RunEvent.flushStats] else [])
      ++ [RunEvent.clusterManagerShutdown, RunEvent.closeConnections,
          RunEvent.shutdownThread] ∧
    (runEvents n s).count RunEvent.flushStats =
      (if s.statFlushTimerSet then 1 else 0) ∧
    (runEvents n (shutdownAdmin s)).count RunEvent.flushStats = 0 := by
  refine ⟨runEvents_shape n s, ?_, ?_⟩
  · rw [runEvents_shape, List.count_append, List.count_append, List.count_append]
    rw [count_map_workerExit _ _ (fun w h => RunEvent.noConfusion h)]
    cases hts : s.statFlushTimerSet <;> simp [List.count_cons]
  · rw [runEvents_shape, List.count_append, List.count_append, List.count_append]
    rw [count_map_workerExit _ _ (fun w h => RunEvent.noConfusion h)]
    simp [shutdownAdmin, List.count_cons]

lemma buildSocketMap_ip (dup : String → Int) (listeners : List ListenerConfig)
    (hip : ∀ l ∈ listeners, l.kind = AddrKind.ip) :
    buildSocketMap dup listeners =
      some (listeners.map (fun l =>
        (l.id, if dup ("tcp://" ++ l.address) ≠ -1 then
            ListenSocket.inheritedFd (dup ("tcp://" ++ l.address)) l.address
          else ListenSocket.freshBound l.address l.bindToPort))) := by
  induction listeners with
  | nil => simp [buildSocketMap]
  | cons l rest ih =>
    rw [buildSocketMap, listenerSocketEntry,
      if_pos (hip l (List.mem_cons_self l rest)),
      ih (fun x hx => hip x (List.mem_cons_of_mem l hx))]
    by_cases hd : dup ("tcp://" ++ l.address) ≠ -1
    · rw [if_pos hd, List.map_cons, if_pos hd]
      rfl
    · rw [if_neg hd, List.map_cons, if_neg hd]
      rfl

/-- C6: for every configured listener of IP type the loop first consults
`restarter_.duplicateParentListenSocket` with the `tcp://` url of the
listener's address; a returned fd different from `-1` yields a socket
wrapping that inherited descriptor, and `-1` yields a freshly bound
`TcpListenSocket`; either way exactly one `socket_map_` entry is stored,
keyed by the `ListenerConfig`'s identity. -/
theorem socket_map_construction (dup : String → Int) (listeners : List ListenerConfig)
    (hip : ∀ l ∈ listeners, l.kind = AddrKind.ip) :
    ∃ sm, buildSocketMap dup listeners = some sm ∧
      sm.map Prod.fst = listeners.map ListenerConfig.id ∧
      (∀ l ∈ listeners,
        (l.id, if dup ("tcp://" ++ l.address) ≠ -1 then
            ListenSocket.inheritedFd (dup ("tcp://" ++ l.address)) l.address
          else ListenSocket.freshBound l.address l.bindToPort) ∈ sm) ∧
      ((listeners.map ListenerConfig.id).Nodup →
        ∀ l ∈ listeners, (sm.map Prod.fst).count l.id = 1) := by
  refine ⟨_, buildSocketMap_ip dup listeners hip, ?_, ?_, ?_⟩
  · rw [List.map_map]
    rfl
  · intro l hl
    exact List.mem_map_of_mem _ hl
  · intro hnd l hl
    rw [List.map_map]
    have hkeys : (listeners.map (Prod.fst ∘ fun l =>
        (l.id, if dup ("tcp://" ++ l.address) ≠ -1 then
            ListenSocket.inheritedFd (dup ("tcp://" ++ l.address)) l.address
          else ListenSocket.freshBound l.address l.bindToPort))) =
        listeners.map ListenerConfig.id := rfl
    rw [hkeys]
    exact List.count_eq_one_of_mem hnd (List.mem_map_of_mem _ hl)

/-- Witness for C6: one listener inheriting parent fd 5, one binding fresh
(the parent answers `-1` for its address); both entries present, keys `[0, 1]`
each stored exactly once. -/
theorem socket_map_construction_witness :
    ∃ sm, buildSocketMap
        (fun u => if u = "tcp://1.2.3.4:80" then 5 else -1)
        [⟨0, "1.2.3.4:80", true, AddrKind.ip⟩, ⟨1, "5.6.7.8:443", true, AddrKind.ip⟩] =
        some sm ∧
      sm.map Prod.fst = [0, 1] ∧
      (0, ListenSocket.inheritedFd 5 "1.2.3.4:80") ∈ sm ∧
      (1, ListenSocket.freshBound "5.6.7.8:443" true) ∈ sm ∧
      (sm.map Prod.fst).count 0 = 1 := by
  obtain ⟨sm, h1, h2, h3, h4⟩ := socket_map_construction
    (fun u => if u = "tcp://1.2.3.4:80" then 5 else -1)
    [⟨0, "1.2.3.4:80", true, AddrKind.ip⟩, ⟨1, "5.6.7.8:443", true, AddrKind.ip⟩]
    (by decide)
  refine ⟨sm, h1, by rw [h2]; rfl, ?_, ?_, ?_⟩
  · have := h3 ⟨0, "1.2.3.4:80", true, AddrKind.ip⟩ (by decide)
    simpa using this
  · have := h3 ⟨1, "5.6.7.8:443", true, AddrKind.ip⟩ (by decide)
    simpa using this
  · exact h4 (by decide) ⟨0, "1.2.3.4:80", true, AddrKind.ip⟩ (by decide)

lemma hexDigitVal_le (c : Char) : hexDigitVal c ≤ 15 := by
  unfold hexDigitVal
  split_ifs <;> omega

lemma atoulHex_lt (cs : List Char) :
    ∀ acc v : Nat, atoulHex cs acc = some v → v < (acc + 1) * 16 ^ cs.length := by
  induction cs with
  | nil =>
    intro acc v h
    rw [atoulHex] at h
    cases h
    simp
  | cons c rest ih =>
    intro acc v h
    rw [atoulHex] at h
    by_cases hc : isHexDigit c
    · rw [if_pos hc] at h
      have := ih (acc * 16 + hexDigitVal c) v h
      have hd := hexDigitVal_le c
      calc v < (acc * 16 + hexDigitVal c + 1) * 16 ^ rest.length := this
        _ ≤ ((acc + 1) * 16) * 16 ^ rest.length := by
            have : acc * 16 + hexDigitVal c + 1 ≤ (acc + 1) * 16 := by nlinarith
            exact Nat.mul_le_mul_right _ this
        _ = (acc + 1) * 16 ^ (rest.length + 1) := by ring
        _ = (acc + 1) * 16 ^ (c :: rest).length := by rw [List.length_cons]
    · rw [if_neg hc] at h
      cases h

lemma atoulHex_eq_none_iff (cs : List Char) :
    ∀ acc : Nat, (atoulHex cs acc = none ↔ ∃ c ∈ cs, isHexDigit c = false) := by
  induction cs with
  | nil =>
    intro acc
    simp [atoulHex]
  | cons c rest ih =>
    intro acc
    rw [atoulHex]
    by_cases hc : isHexDigit c
    · rw [if_pos hc, ih]
      constructor
      · rintro ⟨x, hx, hxf⟩
        exact ⟨x, List.mem_cons_of_mem c hx, hxf⟩
      · rintro ⟨x, hx, hxf⟩
        rcases List.mem_cons.mp hx with h | h
        · rw [h] at hxf
          rw [hc] at hxf
          cases hxf
        · exact ⟨x, h, hxf⟩
    · rw [if_neg hc]
      simp only [true_iff]
      exact ⟨c, List.mem_cons_self c rest, by simpa using hc⟩

lemma atoulHex_foldl (cs : List Char) :
    ∀ acc : Nat, (∀ c ∈ cs, isHexDigit c = true) →
    atoulHex cs acc = some (cs.foldl (fun a c => a * 16 + hexDigitVal c) acc) := by
  induction cs with
  | nil => intro acc _; rfl
  | cons c rest ih =>
    intro acc hall
    rw [atoulHex, if_pos (hall c (List.mem_cons_self c rest)), List.foldl_cons]
    exact ih _ (fun x hx => hall x (List.mem_cons_of_mem c hx))

/-- C7: the constructor publishes server.version as the integer value, in
base 16, of the first six characters of the compiled build SHA — a value
below `2 ^ 24`, i.e. the SHA's first 24 bits — and throws an
`EnvoyException` (modelled by `none`) exactly when those characters do not
parse as hexadecimal (some character is not a hex digit, or there are no
characters at all). -/
theorem version_stat_first_24_bits (revision : List Char) :
    (∀ v, parseBuildShaVersion revision = some v →
      v < 2 ^ 24 ∧
      v = (revision.take 6).foldl (fun a c => a * 16 + hexDigitVal c) 0) ∧
    (parseBuildShaVersion revision = none ↔
      (revision.take 6 = [] ∨ ∃ c ∈ revision.take 6, isHexDigit c = false)) := by
  constructor
  · intro v hv
    rw [parseBuildShaVersion] at hv
    by_cases he : (revision.take 6).isEmpty
    · rw [if_pos he] at hv
      cases hv
    · rw [if_neg he] at hv
      constructor
      · have hlt := atoulHex_lt (revision.take 6) 0 v hv
        have hlen : (revision.take 6).length ≤ 6 := by
          rw [List.length_take]
          exact Nat.min_le_left 6 revision.length
        calc v < (0 + 1) * 16 ^ (revision.take 6).length := hlt
          _ = 16 ^ (revision.take 6).length := by ring
          _ ≤ 16 ^ 6 := Nat.pow_le_pow_right (by norm_num) hlen
          _ = 2 ^ 24 := by norm_num
      · by_cases hall : ∀ c ∈ revision.take 6, isHexDigit c = true
        · rw [atoulHex_foldl (revision.take 6) 0 hall] at hv
          cases hv
          rfl
        · exfalso
          have : atoulHex (revision.take 6) 0 = none := by
            rw [atoulHex_eq_none_iff]
            push_neg at hall
            obtain ⟨c, hc, hcf⟩ := hall
            exact ⟨c, hc, by simpa using hcf⟩
          rw [this] at hv
          cases hv
  · rw [parseBuildShaVersion]
    by_cases he : (revision.take 6).isEmpty
    · rw [if_pos he]
      simp only [true_iff]
      left
      exact List.isEmpty_iff.mp he
    · rw [if_neg he]
      rw [atoulHex_eq_none_iff]
      constructor
      · intro h
        right
        exact h
      · intro h
        rcases h with h | h
        · exact absurd (List.isEmpty_iff.mpr h) he
        · exact h

/-- Witness for C7: the SHA prefix `abcdef` parses to `0xabcdef = 11259375`,
which is below `2 ^ 24`. -/
theorem version_stat_first_24_bits_witness :
    11259375 < 2 ^ 24 ∧
    11259375 = (['a', 'b', 'c', 'd', 'e', 'f', '0', '1'].take 6).foldl
      (fun a c => a * 16 + hexDigitVal c) 0 :=
  (version_stat_first_24_bits ['a', 'b', 'c', 'd', 'e', 'f', '0', '1']).1
    11259375 (by decide)

/-- C8, as stated, is false on the code: at `concurrency = 0` the loop bound
is `std::max(1U, options.concurrency()) = 1`, so exactly one Worker is
constructed, not zero. -/
theorem worker_construction_at_zero :
    (workerPhaseEvents 0).countP isCreateWorker = 1 ∧ (1 : Nat) ≠ 0 := by
  decide

/-- C8 (amended): `InstanceImpl::initialize` constructs exactly
`max 1 concurrency` Worker objects, and every worker construction happens
before the main thread is registered for thread-local updates. -/
theorem worker_construction (c : Nat) :
    (workerPhaseEvents c).countP isCreateWorker = max 1 c ∧
    (∀ i j e, (workerPhaseEvents c).get? i = some (PhaseEvent.createWorker e) →
      (workerPhaseEvents c).get? j = some PhaseEvent.registerMainThread →
      i < j) := by
  constructor
  · rw [workerPhaseEvents, List.countP_append, List.countP_map]
    have h1 : (List.range (max 1 c)).countP (isCreateWorker ∘ PhaseEvent.createWorker)
        = (List.range (max 1 c)).length := by
      apply List.countP_eq_length.mpr
      intro a _
      rfl
    rw [h1, List.length_range]
    rfl
  · intro i j e hi hj
    have hlen : ((List.range (max 1 c)).map PhaseEvent.createWorker).length =
        max 1 c := by
      rw [List.length_map, List.length_range]
    have hjge : ¬ j < max 1 c := by
      intro hjlt
      rw [workerPhaseEvents, List.get?_append (by rw [hlen]; exact hjlt)] at hj
      rw [List.get?_map] at hj
      cases hr : (List.range (max 1 c)).get? j with
      | none => rw [hr] at hj; cases hj
      | some v => rw [hr] at hj; cases hj
    have hilt : i < max 1 c := by
      by_contra hige
      rw [workerPhaseEvents, List.get?_append_right (by rw [hlen]; omega)] at hi
      rw [hlen] at hi
      have : i - max 1 c < 2 := by
        by_contra hbig
        rw [List.get?_eq_none.mpr (by simp; omega)] at hi
        cases hi
      interval_cases h : (i - max 1 c)
      · simp [List.get?] at hi
      · simp [List.get?] at hi
    omega

/-- Witness for the amended C8 at `concurrency = 2`: two workers are
constructed (positions 0 and 1) and the main thread is registered only at
position 2. -/
theorem worker_construction_witness :
    (workerPhaseEvents 2).countP isCreateWorker = max 1 2 ∧ (0 : Nat) < 2 :=
  ⟨(worker_construction 2).1,
   (worker_construction 2).2 0 2 0 (by decide) (by decide)⟩

/-- C9: after start-up, `healthCheckFailed()` returns true iff a flags path
was configured and `$flagsPath/drain` existed when `loadServerFlags` ran —
whatever value the gauge held before the constructor's
`failHealthcheck(false)`; moreover `failHealthcheck(fail)` makes
`healthCheckFailed()` return exactly `fail` (the gauge is set to `!fail` and
`healthCheckFailed` tests it against 0). -/
theorem health_check_at_startup (fileExists : String → Bool)
    (flagsPath : Option String) (g : Nat) :
    (healthCheckFailed (startupHealth fileExists flagsPath g) = true ↔
      ∃ p, flagsPath = some p ∧ fileExists (p ++ "/drain") = true) ∧
    (∀ s fail, healthCheckFailed (failHealthcheck s fail) = fail) := by
  constructor
  · rw [startupHealth]
    cases flagsPath with
    | none =>
      simp [loadServerFlags, failHealthcheck, healthCheckFailed]
    | some p =>
      cases hfe : fileExists (p ++ "/drain") with
      | false =>
        simp [loadServerFlags, hfe, failHealthcheck, healthCheckFailed]
      | true =>
        simp [loadServerFlags, hfe, failHealthcheck, healthCheckFailed]
  · intro s fail
    cases fail <;> simp [failHealthcheck, healthCheckFailed]

/-- Witness for C9: a configured flags path whose drain file exists. -/
theorem health_check_at_startup_witness :
    (healthCheckFailed (startupHealth (fun f => f == "/flags/drain")
        (some "/flags") 1) = true ↔
      ∃ p, (some "/flags" : Option String) = some p ∧
        (fun f => f == "/flags/drain") (p ++ "/drain") = true) ∧
    (∀ s fail, healthCheckFailed (failHealthcheck s fail) = fail) :=
  health_check_at_startup (fun f => f == "/flags/drain") (some "/flags") 1

lemma lookup_mem_of_mem_keys (socketMap : List (Nat × ListenSocket)) (k : Nat)
    (hk : k ∈ socketMap.map Prod.fst) :
    ∃ sock, socketMap.lookup k = some sock ∧ (k, sock) ∈ socketMap := by
  induction socketMap with
  | nil => simp at hk
  | cons e rest ih =>
    by_cases hke : k = e.1
    · refine ⟨e.2, ?_, ?_⟩
      · rw [List.lookup]
        have : (k == e.1) = true := by simp [hke]
        rw [this]
      · rw [hke]
        exact List.mem_cons_self _ _
    · have hk' : k ∈ rest.map Prod.fst := by
        rcases List.mem_map.mp hk with ⟨x, hx, hxk⟩
        rcases List.mem_cons.mp hx with h | h
        · exact absurd (by rw [← hxk, h]) hke
        · exact List.mem_map.mpr ⟨x, h, hxk⟩
      obtain ⟨sock, hs1, hs2⟩ := ih hk'
      refine ⟨sock, ?_, List.mem_cons_of_mem e hs2⟩
      rw [List.lookup]
      have : (k == e.1) = false := by
        simp only [beq_eq_false_iff_ne, ne_eq]
        exact hke
      rw [this]
      exact hs1

lemma listenerSocketEntry_fst (dup : String → Int) (l : ListenerConfig)
    (e : Nat × ListenSocket) (he : listenerSocketEntry dup l = some e) :
    e.1 = l.id := by
  rw [listenerSocketEntry] at he
  by_cases hk : l.kind = AddrKind.ip
  · rw [if_pos hk] at he
    by_cases hd : dup ("tcp://" ++ l.address) ≠ -1
    · rw [if_pos hd] at he
      cases he
      rfl
    · rw [if_neg hd] at he
      cases he
      rfl
  · rw [if_neg hk] at he
    cases he

lemma buildSocketMap_keys (dup : String → Int) :
    ∀ (listeners : List ListenerConfig) (sm : List (Nat × ListenSocket)),
    buildSocketMap dup listeners = some sm →
    sm.map Prod.fst = listeners.map ListenerConfig.id := by
  intro listeners
  induction listeners with
  | nil =>
    intro sm hsm
    rw [buildSocketMap] at hsm
    cases hsm
    rfl
  | cons l rest ih =>
    intro sm hsm
    rw [buildSocketMap] at hsm
    cases he : listenerSocketEntry dup l with
    | none =>
      rw [he] at hsm
      cases hsm
    | some e =>
      rw [he] at hsm
      cases hm : buildSocketMap dup rest with
      | none =>
        rw [hm] at hsm
        cases hsm
      | some m =>
        rw [hm] at hsm
        have hsm2 : e :: m = sm := by simpa using hsm
        rw [← hsm2, List.map_cons, List.map_cons, ih m hm,
          listenerSocketEntry_fst dup l e he]

/-- C10: `getListenSocketByIndex` returns null for every index at or past
the number of configured listeners, and otherwise returns the socket stored
in `socket_map_` under the identity of the `index`-th `ListenerConfig`; on a
socket map built by the initialization loop the lookup actually finds the
stored socket of that listener.  The embedding is total: the `index < size` guard
means `std::next` never walks past the end. -/
theorem get_listen_socket_by_index (listeners : List ListenerConfig)
    (socketMap : List (Nat × ListenSocket)) (index : Nat) :
    (listeners.length ≤ index →
      getListenSocketByIndex listeners socketMap index = none) ∧
    (∀ h : index < listeners.length,
      getListenSocketByIndex listeners socketMap index =
        socketMap.lookup (listeners.get ⟨index, h⟩).id) ∧
    (∀ dup sm, buildSocketMap dup listeners = some sm →
      ∀ h : index < listeners.length,
        ∃ sock, getListenSocketByIndex listeners sm index = some sock ∧
          ((listeners.get ⟨index, h⟩).id, sock) ∈ sm) := by
  refine ⟨?_, ?_, ?_⟩
  · intro hge
    rw [getListenSocketByIndex, dif_neg (by omega)]
  · intro h
    rw [getListenSocketByIndex, dif_pos h]
  · intro dup sm hsm h
    have hkeys : sm.map Prod.fst = listeners.map ListenerConfig.id :=
      buildSocketMap_keys dup listeners sm hsm
    have hmem : (listeners.get ⟨index, h⟩).id ∈ sm.map Prod.fst := by
      rw [hkeys]
      exact List.mem_map_of_mem _ (listeners.get_mem index h)
    obtain ⟨sock, hs1, hs2⟩ := lookup_mem_of_mem_keys sm _ hmem
    refine ⟨sock, ?_, hs2⟩
    rw [getListenSocketByIndex, dif_pos h]
    exact hs1

/-- Witness for C10: a two-listener configuration, looked up at the
in-range index 1. -/
theorem get_listen_socket_by_index_witness :
    getListenSocketByIndex
      [⟨0, "1.2.3.4:80", true, AddrKind.ip⟩, ⟨1, "5.6.7.8:443", true, AddrKind.ip⟩]
      [(0, ListenSocket.inheritedFd 5 "1.2.3.4:80"),
       (1, ListenSocket.freshBound "5.6.7.8:443" true)] 1 =
      some (ListenSocket.freshBound "5.6.7.8:443" true) ∧
    getListenSocketByIndex
      [⟨0, "1.2.3.4:80", true, AddrKind.ip⟩, ⟨1, "5.6.7.8:443", true, AddrKind.ip⟩]
      [(0, ListenSocket.inheritedFd 5 "1.2.3.4:80"),
       (1, ListenSocket.freshBound "5.6.7.8:443" true)] 5 = none :=
  ⟨((get_listen_socket_by_index
      [⟨0, "1.2.3.4:80", true, AddrKind.ip⟩, ⟨1, "5.6.7.8:443", true, AddrKind.ip⟩]
      [(0, ListenSocket.inheritedFd 5 "1.2.3.4:80"),
       (1, ListenSocket.freshBound "5.6.7.8:443" true)] 1).2.1 (by decide)).trans
      (by decide),
    (get_listen_socket_by_index
      [⟨0, "1.2.3.4:80", true, AddrKind.ip⟩, ⟨1, "5.6.7.8:443", true, AddrKind.ip⟩]
      [(0, ListenSocket.inheritedFd 5 "1.2.3.4:80"),
       (1, ListenSocket.freshBound "5.6.7.8:443" true)] 5).1 (by decide)⟩

end EnvoyServer
